import Mathlib

/-! Verification of the stock-data-stream repository: a shallow embedding of
its ingestion, storage, availability and indicator code, with theorems about
the behaviour of that embedding. Prices are modelled as rationals, timestamps
as integers, the relational store as an association list keyed by
(symbol, time, interval). -/

set_option maxHeartbeats 1000000

namespace StockData

/-- Natural key of one OHLCV bar: PRIMARY KEY (symbol, time, interval)
(database/fix_schema.py). -/
structure BarKey where
  symbol : String
  time : Nat
  interval : String
  deriving DecidableEq

/-- Value columns of one OHLCV bar (open/high/low/close/volume). -/
structure BarVals where
  open_ : ℚ
  high : ℚ
  low : ℚ
  close : ℚ
  volume : ℤ
  deriving DecidableEq

abbrev Row : Type := BarKey × BarVals

abbrev Store : Type := List Row

def keysOf (rows : Store) : List BarKey := rows.map Prod.fst

/-- pandas `drop_duplicates(subset=['time','symbol','interval'], keep='last')`
(data_loader.py `_bulk_save_to_db`): keep, in order, each row whose key does
not occur again later. -/
def drop_duplicates : Store → Store
  | [] => []
  | r :: rest =>
    if r.1 ∈ keysOf rest then drop_duplicates rest
    else r :: drop_duplicates rest

/-- Effect of one source row of `INSERT ... ON CONFLICT (key) DO UPDATE SET
open = EXCLUDED.open, ...`: update the row with a conflicting key, else
append a new row. -/
def upsertRow (store : Store) (r : Row) : Store :=
  if r.1 ∈ keysOf store then
    store.map fun s => if s.1 = r.1 then (s.1, r.2) else s
  else
    store ++ [r]

def pgDupErr : String :=
  "ON CONFLICT DO UPDATE command cannot affect row a second time"

/-- PostgreSQL `INSERT ... SELECT ... ON CONFLICT DO UPDATE`: source rows are
processed in order, and it is an error for one command to affect the same row
twice, which happens exactly when a second source row carries a key already
inserted or updated by this command. -/
def pgUpsertGo : Store → List BarKey → List Row → Except String Store
  | store, _, [] => Except.ok store
  | store, touched, r :: rest =>
    if r.1 ∈ touched then Except.error pgDupErr
    else pgUpsertGo (upsertRow store r) (r.1 :: touched) rest

def pgUpsert (store : Store) (batch : List Row) : Except String Store :=
  pgUpsertGo store [] batch

/-- `DataLoader._bulk_save_to_db` (data_loader.py): dedupe the batch by key
keeping the last occurrence, then one set-based upsert inside a transaction. -/
def bulk_save_to_db (store : Store) (batch : List Row) : Except String Store :=
  pgUpsert store (drop_duplicates batch)

/-- `StockDataIngestion.save_ohlcv_data` (ingestion.py): empty frame is a
no-op, otherwise the batch goes to the upsert as is, with no deduplication
step. -/
def save_ohlcv_data (store : Store) (batch : List Row) : Except String Store :=
  if batch.isEmpty then Except.ok store else pgUpsert store batch

/-- First row with the given key (the store's reader view of a key). -/
def lookup : Store → BarKey → Option BarVals
  | [], _ => none
  | r :: rest, k => if r.1 = k then some r.2 else lookup rest k

/-- Value of the last row with the given key in a batch. -/
def lastVal : List Row → BarKey → Option BarVals
  | [], _ => none
  | r :: rest, k =>
    match lastVal rest k with
    | some v => some v
    | none => if r.1 = k then some r.2 else none

/-- The store holds at most one row per (symbol, time, interval) key. -/
def NodupKeys (rows : Store) : Prop := (keysOf rows).Nodup

theorem keysOf_cons (r : Row) (rest : Store) :
    keysOf (r :: rest) = r.1 :: keysOf rest := rfl

theorem lastVal_eq_none : ∀ (rows : Store) (k : BarKey),
    lastVal rows k = none ↔ k ∉ keysOf rows
  | [], k => by simp [lastVal, keysOf]
  | r :: rest, k => by
    have ih := lastVal_eq_none rest k
    rw [keysOf_cons]
    cases h : lastVal rest k with
    | some v =>
      have hk : k ∈ keysOf rest := by
        by_contra hk
        rw [ih.mpr hk] at h
        exact Option.noConfusion h
      simp [lastVal, h, hk]
    | none =>
      have hk : k ∉ keysOf rest := ih.mp h
      by_cases hrk : r.1 = k
      · simp [lastVal, h, hrk]
      · simp [lastVal, h, hrk, hk, Ne.symm hrk]

theorem lastVal_drop_duplicates : ∀ (rows : Store) (k : BarKey),
    lastVal (drop_duplicates rows) k = lastVal rows k
  | [], _ => rfl
  | r :: rest, k => by
    have ih := lastVal_drop_duplicates rest k
    unfold drop_duplicates
    by_cases hmem : r.1 ∈ keysOf rest
    · rw [if_pos hmem, ih]
      cases h : lastVal rest k with
      | some v => simp [lastVal, h]
      | none =>
        have hk : k ∉ keysOf rest := (lastVal_eq_none rest k).mp h
        have hrk : r.1 ≠ k := fun he => hk (he ▸ hmem)
        simp [lastVal, h, hrk]
    · rw [if_neg hmem]
      cases h : lastVal rest k with
      | some v => simp [lastVal, h, ih]
      | none => simp [lastVal, h, ih]

theorem keysOf_drop_duplicates_subset : ∀ (rows : Store) (k : BarKey),
    k ∈ keysOf (drop_duplicates rows) → k ∈ keysOf rows
  | [], _, h => h
  | r :: rest, k, h => by
    rw [keysOf_cons]
    unfold drop_duplicates at h
    by_cases hmem : r.1 ∈ keysOf rest
    · rw [if_pos hmem] at h
      exact List.mem_cons_of_mem _ (keysOf_drop_duplicates_subset rest k h)
    · rw [if_neg hmem, keysOf_cons] at h
      rcases List.mem_cons.mp h with h1 | h2
      · exact List.mem_cons.mpr (Or.inl h1)
      · exact List.mem_cons_of_mem _ (keysOf_drop_duplicates_subset rest k h2)

theorem nodupKeys_drop_duplicates : ∀ rows : Store,
    NodupKeys (drop_duplicates rows)
  | [] => List.nodup_nil
  | r :: rest => by
    unfold drop_duplicates
    by_cases hmem : r.1 ∈ keysOf rest
    · rw [if_pos hmem]
      exact nodupKeys_drop_duplicates rest
    · rw [if_neg hmem]
      unfold NodupKeys
      rw [keysOf_cons]
      exact List.nodup_cons.mpr
        ⟨fun h => hmem (keysOf_drop_duplicates_subset rest r.1 h),
         nodupKeys_drop_duplicates rest⟩

theorem lookup_mem_keys : ∀ (store : Store) (k : BarKey) (v : BarVals),
    lookup store k = some v → k ∈ keysOf store
  | [], _, _, h => Option.noConfusion h
  | r :: rest, k, v, h => by
    rw [keysOf_cons]
    unfold lookup at h
    by_cases hrk : r.1 = k
    · exact List.mem_cons.mpr (Or.inl hrk.symm)
    · rw [if_neg hrk] at h
      exact List.mem_cons_of_mem _ (lookup_mem_keys rest k v h)

theorem lookup_map_update : ∀ (store : Store) (r : Row) (k : BarKey),
    lookup (store.map fun s => if s.1 = r.1 then (s.1, r.2) else s) k =
      if k = r.1 ∧ k ∈ keysOf store then some r.2 else lookup store k
  | [], r, k => by simp [lookup, keysOf]
  | s :: rest, r, k => by
    have ih := lookup_map_update rest r k
    rw [List.map_cons]
    by_cases hs : s.1 = r.1
    · rw [if_pos hs]
      by_cases hk : k = s.1
      · simp [lookup, keysOf_cons, hk, hs]
      · have hk' : s.1 ≠ k := Ne.symm hk
        simp only [lookup, hk', if_neg, if_false, ih, keysOf_cons]
        by_cases hkr : k = r.1
        · exact absurd (hkr.trans hs.symm) hk
        · simp [hkr]
    · rw [if_neg hs]
      by_cases hk : s.1 = k
      · have hkr : ¬(k = r.1) := fun he => hs (hk.trans he)
        simp [lookup, hk, hkr]
      · simp only [lookup, hk, if_false, ih, keysOf_cons]
        by_cases hkr : k = r.1
        · have hns : ¬(r.1 = s.1) := fun he => hs he.symm
          simp [hkr, List.mem_cons, hns]
        · simp [hkr]

theorem lookup_append_single : ∀ (store : Store) (r : Row) (k : BarKey),
    r.1 ∉ keysOf store →
    lookup (store ++ [r]) k = if k = r.1 then some r.2 else lookup store k
  | [], r, k, _ => by
    by_cases h : k = r.1 <;> simp [lookup, h, Ne.symm, eq_comm]
  | s :: rest, r, k, hmem => by
    rw [keysOf_cons] at hmem
    have hs : r.1 ≠ s.1 := fun he => hmem (List.mem_cons.mpr (Or.inl he))
    have hrest : r.1 ∉ keysOf rest := fun he => hmem (List.mem_cons_of_mem _ he)
    have ih := lookup_append_single rest r k hrest
    rw [List.cons_append]
    by_cases hk : s.1 = k
    · have hkr : ¬(k = r.1) := fun he => hs (he ▸ hk).symm
      simp [lookup, hk, hkr]
    · simp [lookup, hk, ih]

theorem lookup_upsertRow (store : Store) (r : Row) (k : BarKey) :
    lookup (upsertRow store r) k = if k = r.1 then some r.2 else lookup store k := by
  unfold upsertRow
  by_cases hmem : r.1 ∈ keysOf store
  · rw [if_pos hmem, lookup_map_update]
    by_cases hk : k = r.1
    · simp [hk, hmem]
    · simp [hk]
  · rw [if_neg hmem, lookup_append_single store r k hmem]

theorem lookup_foldl : ∀ (batch : List Row) (store : Store) (k : BarKey),
    lookup (batch.foldl upsertRow store) k =
      match lastVal batch k with
      | some v => some v
      | none => lookup store k
  | [], _, _ => rfl
  | r :: rest, store, k => by
    rw [List.foldl_cons, lookup_foldl rest (upsertRow store r) k]
    cases h : lastVal rest k with
    | some v => simp [lastVal, h]
    | none =>
      by_cases hk : k = r.1
      · subst hk
        simp [lastVal, h, lookup_upsertRow]
      · simp [lastVal, h, hk, Ne.symm hk, lookup_upsertRow]

theorem keysOf_map_update (store : Store) (r : Row) :
    keysOf (store.map fun s => if s.1 = r.1 then (s.1, r.2) else s) =
      keysOf store := by
  induction store with
  | nil => rfl
  | cons s rest ih =>
    rw [List.map_cons, keysOf_cons, keysOf_cons, ih]
    by_cases hs : s.1 = r.1 <;> simp [hs]

theorem nodupKeys_upsertRow (store : Store) (r : Row) (h : NodupKeys store) :
    NodupKeys (upsertRow store r) := by
  unfold upsertRow
  by_cases hmem : r.1 ∈ keysOf store
  · rw [if_pos hmem]
    unfold NodupKeys
    rw [keysOf_map_update]
    exact h
  · rw [if_neg hmem]
    unfold NodupKeys keysOf
    rw [List.map_append]
    simp only [List.map_cons, List.map_nil]
    rw [List.nodup_append]
    exact ⟨h, List.nodup_singleton _,
      fun a ha hb => hmem ((List.mem_singleton.mp hb) ▸ ha)⟩

theorem nodupKeys_foldl : ∀ (batch : List Row) (store : Store),
    NodupKeys store → NodupKeys (batch.foldl upsertRow store)
  | [], _, h => h
  | r :: rest, store, h => by
    rw [List.foldl_cons]
    exact nodupKeys_foldl rest _ (nodupKeys_upsertRow store r h)

theorem map_update_notmem (r : Row) : ∀ (l : Store),
    (∀ y ∈ l, y.1 ≠ r.1) →
    (l.map fun s => if s.1 = r.1 then (s.1, r.2) else s) = l
  | [], _ => rfl
  | s :: rest, h => by
    rw [List.map_cons, if_neg (h s (List.mem_cons_self s rest)),
      map_update_notmem r rest fun y hy => h y (List.mem_cons_of_mem _ hy)]

theorem map_update_id : ∀ (store : Store) (r : Row),
    NodupKeys store → lookup store r.1 = some r.2 →
    (store.map fun s => if s.1 = r.1 then (s.1, r.2) else s) = store
  | [], r, _, hlk => Option.noConfusion hlk
  | s :: rest, r, hnd, hlk => by
    have hnd' := List.nodup_cons.mp hnd
    rw [List.map_cons]
    by_cases hs : s.1 = r.1
    · rw [lookup, if_pos hs] at hlk
      have hv : s.2 = r.2 := Option.some.inj hlk
      have hrest : ∀ y ∈ rest, y.1 ≠ r.1 := by
        intro y hy he
        refine hnd'.1 (show s.1 ∈ keysOf rest from ?_)
        rw [hs, ← he]
        exact List.mem_map.mpr ⟨y, hy, rfl⟩
      rw [if_pos hs, map_update_notmem r rest hrest, ← hv]
    · rw [lookup, if_neg hs] at hlk
      rw [if_neg hs, map_update_id rest r hnd'.2 hlk]

theorem upsertRow_self (store : Store) (r : Row)
    (hnd : NodupKeys store) (hlk : lookup store r.1 = some r.2) :
    upsertRow store r = store := by
  unfold upsertRow
  rw [if_pos (lookup_mem_keys store r.1 r.2 hlk), map_update_id store r hnd hlk]

theorem foldl_upsert_fixed : ∀ (batch : List Row) (store : Store),
    NodupKeys store → (∀ r ∈ batch, lookup store r.1 = some r.2) →
    batch.foldl upsertRow store = store
  | [], _, _, _ => rfl
  | r :: rest, store, hnd, h => by
    rw [List.foldl_cons, upsertRow_self store r hnd (h r (List.mem_cons_self r rest))]
    exact foldl_upsert_fixed rest store hnd fun s hs => h s (List.mem_cons_of_mem _ hs)

theorem lastVal_of_mem : ∀ (l : Store) (r : Row),
    (keysOf l).Nodup → r ∈ l → lastVal l r.1 = some r.2
  | [], _, _, hr => absurd hr (List.not_mem_nil _)
  | x :: rest, r, hnd, hr => by
    have hnd' := List.nodup_cons.mp (keysOf_cons x rest ▸ hnd)
    rcases List.mem_cons.mp hr with he | hm
    · subst he
      have : lastVal rest r.1 = none := (lastVal_eq_none rest r.1).mpr hnd'.1
      simp [lastVal, this]
    · have := lastVal_of_mem rest r hnd'.2 hm
      simp [lastVal, this]

theorem pgUpsertGo_ok : ∀ (batch : List Row) (store : Store) (touched : List BarKey),
    (keysOf batch).Nodup → (∀ k ∈ touched, k ∉ keysOf batch) →
    pgUpsertGo store touched batch = Except.ok (batch.foldl upsertRow store)
  | [], _, _, _, _ => rfl
  | r :: rest, store, touched, hnd, hdis => by
    have hnd' := List.nodup_cons.mp (keysOf_cons r rest ▸ hnd)
    have hr : r.1 ∉ touched := fun h =>
      hdis r.1 h (keysOf_cons r rest ▸ List.mem_cons_self r.1 (keysOf rest))
    rw [pgUpsertGo, if_neg hr, List.foldl_cons]
    exact pgUpsertGo_ok rest (upsertRow store r) (r.1 :: touched) hnd'.2
      (fun k hk => by
        rcases List.mem_cons.mp hk with he | hm
        · exact he ▸ hnd'.1
        · exact fun hkm => hdis k hm (keysOf_cons r rest ▸ List.mem_cons_of_mem _ hkm))

def kAAPL : BarKey := ⟨"AAPL", 0, "1day"⟩

def vLow : BarVals := ⟨1, 1, 1, 1, 1⟩

def vHigh : BarVals := ⟨2, 2, 2, 2, 2⟩

/-- C1, counterexample: the claim says the upsert path first drops duplicate
(time, symbol, interval) keys and always converges to one row per key, but
`StockDataIngestion.save_ohlcv_data` (ingestion.py) has no deduplication
step, so a batch holding the same key twice makes its
`INSERT ... ON CONFLICT DO UPDATE` affect one row twice and the call raises
instead of storing the last value. -/
theorem C1_counterexample :
    save_ohlcv_data [] [(kAAPL, vLow), (kAAPL, vHigh)] = Except.error pgDupErr := by
  rfl

/-- C1 (amended): `DataLoader._bulk_save_to_db` first drops duplicate keys
keeping the last occurrence; on a store with unique keys it succeeds, keys
stay unique (no duplicate rows), every key submitted in the batch ends at
the value of its last occurrence, other keys are untouched, and re-submitting
the identical batch returns the store unchanged (idempotent, last-write-wins). -/
theorem C1_upsert_lww (store : Store) (batch : List Row) (h : NodupKeys store) :
    ∃ store2,
      bulk_save_to_db store batch = Except.ok store2 ∧
      NodupKeys store2 ∧
      (∀ k, lookup store2 k =
        match lastVal batch k with
        | some v => some v
        | none => lookup store k) ∧
      bulk_save_to_db store2 batch = Except.ok store2 := by
  have hnd : (keysOf (drop_duplicates batch)).Nodup := nodupKeys_drop_duplicates batch
  have hok : bulk_save_to_db store batch =
      Except.ok ((drop_duplicates batch).foldl upsertRow store) :=
    pgUpsertGo_ok (drop_duplicates batch) store []
      (hnd) (fun k hk => absurd hk (List.not_mem_nil k))
  refine ⟨(drop_duplicates batch).foldl upsertRow store, hok,
    nodupKeys_foldl _ _ h, ?_, ?_⟩
  · intro k
    rw [lookup_foldl, lastVal_drop_duplicates]
  · have hnd2 : NodupKeys ((drop_duplicates batch).foldl upsertRow store) :=
      nodupKeys_foldl _ _ h
    have hfix : ∀ r ∈ drop_duplicates batch,
        lookup ((drop_duplicates batch).foldl upsertRow store) r.1 = some r.2 := by
      intro r hr
      rw [lookup_foldl, lastVal_of_mem (drop_duplicates batch) r hnd hr]
    show pgUpsertGo _ [] (drop_duplicates batch) = _
    rw [pgUpsertGo_ok (drop_duplicates batch) _ []
      hnd (fun k hk => absurd hk (List.not_mem_nil k)),
      foldl_upsert_fixed _ _ hnd2 hfix]

/-- C1, witness: the amended theorem applied to the empty store and a
one-row batch. -/
theorem C1_witness :
    NodupKeys [] ∧
    (∃ store2,
      bulk_save_to_db [] [(kAAPL, vLow)] = Except.ok store2 ∧
      NodupKeys store2 ∧
      (∀ k, lookup store2 k =
        match lastVal [(kAAPL, vLow)] k with
        | some v => some v
        | none => lookup [] k) ∧
      bulk_save_to_db store2 [(kAAPL, vLow)] = Except.ok store2) :=
  ⟨List.nodup_nil, C1_upsert_lww [] [(kAAPL, vLow)] List.nodup_nil⟩

/-! Retry behaviour of `MassiveClient._make_request` (massive_client.py).
Constants are the defaults of config.py. An attempt's HTTP outcome is given
by a schedule `outcomes : Nat → HttpOutcome` (outcome of the n-th attempt,
counting from 0). -/

def API_MAX_RETRIES : Nat := 3

def API_RATE_LIMIT_DELAY : Nat := 60

inductive HttpOutcome
  | success
  | timeout
  | connError
  | status429
  | status401
  | status404
  | otherStatus
  | reqException
  deriving DecidableEq

inductive PyExc
  | timeoutExc
  | connErrorExc
  | httpError429
  | valueError401
  deriving DecidableEq

inductive AttemptOut
  | retVal : Option Unit → AttemptOut
  | raised : PyExc → AttemptOut
  deriving DecidableEq

/-- One execution of the body of `_make_request`: 429 sleeps
API_RATE_LIMIT_DELAY seconds then re-raises the HTTPError, 401 raises
ValueError, timeout and connection errors re-raise, 404 and every other
failure return None. The second component is seconds slept. -/
def make_request_once : HttpOutcome → AttemptOut × Nat
  | .success => (.retVal (some ()), 0)
  | .timeout => (.raised .timeoutExc, 0)
  | .connError => (.raised .connErrorExc, 0)
  | .status429 => (.raised .httpError429, API_RATE_LIMIT_DELAY)
  | .status401 => (.raised .valueError401, 0)
  | .status404 => (.retVal none, 0)
  | .otherStatus => (.retVal none, 0)
  | .reqException => (.retVal none, 0)

/-- The decorator's predicate: `retry_if_exception_type((Timeout,
ConnectionError))`. -/
def retryable : PyExc → Bool
  | .timeoutExc => true
  | .connErrorExc => true
  | _ => false

structure CallResult where
  result : Except PyExc (Option Unit)
  attempts : Nat
  slept : Nat

/-- tenacity `@retry(stop=stop_after_attempt(API_MAX_RETRIES), ...,
reraise=True)`: run attempts until one returns, raises a non-retryable
exception, or the attempt budget is spent; then the last exception is
re-raised. `fuel` is the number of attempts still allowed. -/
def runWithRetry (outcomes : Nat → HttpOutcome) :
    Nat → Nat → Nat → CallResult
  | 0, idx, slept => ⟨Except.error PyExc.timeoutExc, idx, slept⟩
  | fuel + 1, idx, slept =>
    match make_request_once (outcomes idx) with
    | (.retVal v, s) => ⟨Except.ok v, idx + 1, slept + s⟩
    | (.raised e, s) =>
      if retryable e ∧ 0 < fuel then runWithRetry outcomes fuel (idx + 1) (slept + s)
      else ⟨Except.error e, idx + 1, slept + s⟩

def make_request (outcomes : Nat → HttpOutcome) : CallResult :=
  runWithRetry outcomes API_MAX_RETRIES 0 0

/-- C2: when the first attempt hits HTTP 429 the client sleeps for the
fixed cooldown and then the HTTPError propagates at once — the decorator's
predicate retries only Timeout and ConnectionError, so only one attempt of
the API_MAX_RETRIES budget is used, although the code's own comment says the
@retry decorator re-attempts. -/
theorem C2_429_not_retried (outcomes : Nat → HttpOutcome)
    (h : outcomes 0 = HttpOutcome.status429) :
    make_request outcomes =
      ⟨Except.error PyExc.httpError429, 1, API_RATE_LIMIT_DELAY⟩ := by
  unfold make_request API_MAX_RETRIES runWithRetry
  simp [h, make_request_once, retryable]

/-- C2, witness: the schedule that answers 429 on every attempt. -/
theorem C2_429_witness :
    (fun _ : Nat => HttpOutcome.status429) 0 = HttpOutcome.status429 ∧
    make_request (fun _ => HttpOutcome.status429) =
      ⟨Except.error PyExc.httpError429, 1, API_RATE_LIMIT_DELAY⟩ :=
  ⟨rfl, C2_429_not_retried (fun _ => HttpOutcome.status429) rfl⟩

/-! `DataLoader.load_ticker_data` (data_loader.py): fetch, stamp symbol and
interval, bulk-save; returns a success boolean. The fetched bars are a
parameter (the upstream response after the client's field renaming). -/

structure ApiBar where
  time : Nat
  open_ : ℚ
  high : ℚ
  low : ℚ
  close : ℚ
  volume : ℤ
  deriving DecidableEq

/-- data_loader.py lines 74-84: build the frame and stamp each row with
symbol and interval. -/
def stampRows (ticker interval : String) (data : List ApiBar) : List Row :=
  data.map fun b =>
    (⟨ticker, b.time, interval⟩, ⟨b.open_, b.high, b.low, b.close, b.volume⟩)

/-- `DataLoader.load_ticker_data`: empty fetch logs a warning and returns
False without touching the store; otherwise the batch is bulk-saved and True
is returned; any raised error is caught and False returned. -/
def load_ticker_data (store : Store) (ticker interval : String)
    (data : List ApiBar) : Bool × Store :=
  if data.isEmpty then (false, store)
  else
    match bulk_save_to_db store (stampRows ticker interval data) with
    | Except.ok store2 => (true, store2)
    | Except.error _ => (false, store)

/-- C3, counterexample: an empty upstream result makes
`DataLoader.load_ticker_data` return False — the claim says the call
reports success. -/
theorem C3_counterexample :
    load_ticker_data [] "AAPL" "1day" [] = (false, []) := rfl

/-- C3 (amended): on an empty upstream result `DataLoader.load_ticker_data`
stores nothing and reports failure (returns False), not success. -/
theorem C3_empty_is_failure (store : Store) (ticker interval : String) :
    load_ticker_data store ticker interval [] = (false, store) := rfl

/-! `MassiveClient.get_ohlcv` (massive_client.py): the upstream aggregates
API is modelled as the chain of pages it would serve, each page carrying its
bars and an optional continuation cursor (`next_url`). -/

structure AggsResponse where
  results : List ApiBar
  next_url : Option String
  deriving DecidableEq

def MAX_DATA_POINTS : Nat := 50000

/-- `get_ohlcv`: one `_make_request` call (its `limit` parameter caps rows
per response server-side), then the first response's results are returned;
`next_url` is never read. An empty page list models `_make_request`
returning None. -/
def get_ohlcv : List AggsResponse → List ApiBar
  | [] => []
  | p :: _ => p.results

/-- Modelled from the spec (§4.1): `if the response carries a continuation
cursor, follow it until exhausted or a safety cap on total rows is
reached` — the paginated fetch the claim describes, for comparison with
`get_ohlcv`. -/
def get_ohlcv_paged : List AggsResponse → Nat → List ApiBar
  | [], _ => []
  | p :: rest, cap =>
    if (p.results.take cap).length < cap ∧ p.next_url.isSome then
      p.results.take cap ++ get_ohlcv_paged rest (cap - (p.results.take cap).length)
    else p.results.take cap

def bar1 : ApiBar := ⟨1, 1, 1, 1, 1, 1⟩

def bar2 : ApiBar := ⟨2, 2, 2, 2, 2, 2⟩

def twoPages : List AggsResponse :=
  [⟨[bar1], some "next"⟩, ⟨[bar2], none⟩]

/-- C4, counterexample: with a continuation cursor on the first page and a
second page well under the row cap, `get_ohlcv` returns only the first
page's bar — the second page's bar is missing although the claim says all
pages up to the cap are fetched. -/
theorem C4_counterexample :
    get_ohlcv twoPages = [bar1] ∧
    bar2 ∉ get_ohlcv twoPages ∧
    get_ohlcv_paged twoPages MAX_DATA_POINTS = [bar1, bar2] := by
  refine ⟨rfl, ?_, rfl⟩
  decide

/-- C4 (amended): the client issues a single request and returns only the
first response's bars, ignoring the continuation cursor; that list is
exactly the first-page prefix of what cursor-following pagination would
return under the same row cap. -/
theorem C4_single_request (p : AggsResponse) (rest : List AggsResponse)
    (cap : Nat) (hcap : p.results.length ≤ cap) :
    get_ohlcv (p :: rest) =
      (get_ohlcv_paged (p :: rest) cap).take p.results.length := by
  have htake : p.results.take cap = p.results := List.take_of_length_le hcap
  unfold get_ohlcv get_ohlcv_paged
  rw [htake]
  by_cases h : p.results.length < cap ∧ p.next_url.isSome
  · rw [if_pos h, List.take_left]
  · rw [if_neg h, List.take_length]

/-- C4, witness: the amended theorem at the two-page chain and the default
row cap. -/
theorem C4_witness :
    ([bar1] : List ApiBar).length ≤ MAX_DATA_POINTS ∧
    get_ohlcv twoPages =
      (get_ohlcv_paged twoPages MAX_DATA_POINTS).take
        ([bar1] : List ApiBar).length := by
  refine ⟨by decide, ?_⟩
  exact C4_single_request ⟨[bar1], some "next"⟩ [⟨[bar2], none⟩] MAX_DATA_POINTS
    (by decide)

/-! RSI (indicators_minimal.py `calculate_rsi`). pandas float arithmetic on
the values this code produces is modelled exactly: finite values are
rationals, a positive number divided by zero is +inf, zero by zero is NaN,
and NaN propagates. -/

inductive EF
  | nan
  | inf
  | ninf
  | fin (q : ℚ)
  deriving DecidableEq

def EF.add : EF → EF → EF
  | .fin a, .fin b => .fin (a + b)
  | .nan, _ => .nan
  | _, .nan => .nan
  | .inf, .ninf => .nan
  | .ninf, .inf => .nan
  | .inf, _ => .inf
  | _, .inf => .inf
  | .ninf, _ => .ninf
  | _, .ninf => .ninf

def EF.sub : EF → EF → EF
  | .fin a, .fin b => .fin (a - b)
  | .nan, _ => .nan
  | _, .nan => .nan
  | .inf, .inf => .nan
  | .ninf, .ninf => .nan
  | .inf, _ => .inf
  | _, .inf => .ninf
  | .ninf, _ => .ninf
  | _, .ninf => .inf

def EF.div : EF → EF → EF
  | .nan, _ => .nan
  | _, .nan => .nan
  | .fin a, .fin b =>
    if b = 0 then (if 0 < a then .inf else if a < 0 then .ninf else .nan)
    else .fin (a / b)
  | .fin _, .inf => .fin 0
  | .fin _, .ninf => .fin 0
  | .inf, .fin b => if b < 0 then .ninf else .inf
  | .ninf, .fin b => if b < 0 then .inf else .ninf
  | .inf, _ => .nan
  | .ninf, _ => .nan

/-- `delta = close.diff(); gain = delta.where(delta > 0, 0)`: NaN at index 0
compares false, so gain there is 0. -/
def gain (closes : List ℚ) (i : Nat) : ℚ :=
  if i = 0 then 0 else max (closes.getD i 0 - closes.getD (i - 1) 0) 0

/-- `loss = -delta.where(delta < 0, 0)`. -/
def loss (closes : List ℚ) (i : Nat) : ℚ :=
  if i = 0 then 0 else max (closes.getD (i - 1) 0 - closes.getD i 0) 0

/-- `for i in range(period, len(df)): avg_gain.iloc[i] =
gain.iloc[i - period + 1:i + 1].mean()`; NaN (none) elsewhere. -/
def avg_gain (closes : List ℚ) (period i : Nat) : Option ℚ :=
  if period ≤ i ∧ i < closes.length then
    some (((List.range period).map fun j => gain closes (i - j)).sum / (period : ℚ))
  else none

def avg_loss (closes : List ℚ) (period i : Nat) : Option ℚ :=
  if period ≤ i ∧ i < closes.length then
    some (((List.range period).map fun j => loss closes (i - j)).sum / (period : ℚ))
  else none

def toEF : Option ℚ → EF
  | none => .nan
  | some q => .fin q

/-- `rs = avg_gain / avg_loss; rsi = 100 - (100 / (1 + rs))` at one index. -/
def rsiAt (closes : List ℚ) (period i : Nat) : EF :=
  EF.sub (.fin 100)
    (EF.div (.fin 100)
      (EF.add (.fin 1)
        (EF.div (toEF (avg_gain closes period i))
          (toEF (avg_loss closes period i)))))

def calculate_rsi (closes : List ℚ) (period : Nat) : List EF :=
  (List.range closes.length).map (rsiAt closes period)

/-- C5, counterexample: on the flat series [5,5,5,5] with period 2, index 2
has trailing average loss exactly 0, yet the computed RSI is NaN
(0/0 → NaN propagates through the formula), not 100 as the claim states. -/
theorem C5_counterexample :
    avg_loss [5, 5, 5, 5] 2 2 = some 0 ∧
    rsiAt [5, 5, 5, 5] 2 2 = EF.nan := by
  constructor
  · norm_num [avg_loss, loss, List.range_succ]
  · norm_num [rsiAt, avg_gain, avg_loss, gain, loss, List.range_succ, toEF,
      EF.div, EF.add, EF.sub]

/-- C5 (amended): at an index where the trailing average loss is zero and
the trailing average gain is positive (in particular on a strictly rising
window), RS becomes +inf and the RSI is exactly 100, never infinite or
undefined; when average gain and loss are both zero (a flat window) the RSI
is NaN instead. -/
theorem C5_rsi_100 (closes : List ℚ) (period i : Nat) (g : ℚ)
    (hg : avg_gain closes period i = some g) (hgpos : 0 < g)
    (hl : avg_loss closes period i = some 0) :
    rsiAt closes period i = EF.fin 100 := by
  unfold rsiAt
  rw [hg, hl]
  simp [toEF, EF.div, EF.add, EF.sub, hgpos]

/-- C5, witness: the strictly rising series [1,2,3] with period 2 at
index 2. -/
theorem C5_witness :
    avg_gain [1, 2, 3] 2 2 = some 1 ∧ (0 : ℚ) < 1 ∧
    avg_loss [1, 2, 3] 2 2 = some 0 ∧
    rsiAt [1, 2, 3] 2 2 = EF.fin 100 :=
  ⟨by norm_num [avg_gain, gain, List.range_succ], by norm_num,
    by norm_num [avg_loss, loss, List.range_succ],
    C5_rsi_100 [1, 2, 3] 2 2 1 (by norm_num [avg_gain, gain, List.range_succ])
      (by norm_num) (by norm_num [avg_loss, loss, List.range_succ])⟩

/-! SMA (indicators_minimal.py `calculate_sma`): start from an all-NaN
result array and assign `np.mean(values[i - period + 1:i + 1])` for
`i in range(period - 1, len(values))`. -/

def smaWindow (closes : List ℚ) (period i : Nat) : List ℚ :=
  (closes.drop (i + 1 - period)).take period

def calculate_sma (closes : List ℚ) (period : Nat) : List (Option ℚ) :=
  (List.range' (period - 1) (closes.length - (period - 1))).foldl
    (fun result i => result.set i (some ((smaWindow closes period i).sum / (period : ℚ))))
    (List.replicate closes.length none)

theorem mem_range_one (s n m : Nat) :
    m ∈ List.range' s n ↔ s ≤ m ∧ m < s + n := by
  rw [List.mem_range']
  constructor
  · rintro ⟨i, hi, rfl⟩
    omega
  · rintro ⟨h1, h2⟩
    exact ⟨m - s, by omega, by omega⟩

theorem foldl_set_getElem (f : Nat → Option ℚ) :
    ∀ (is : List Nat) (res : List (Option ℚ)) (j : Nat),
    (is.foldl (fun r i => r.set i (f i)) res)[j]? =
      if j ∈ is ∧ j < res.length then some (f j) else res[j]?
  | [], res, j => by simp
  | i :: is, res, j => by
    rw [List.foldl_cons, foldl_set_getElem f is (res.set i (f i)) j,
      List.length_set]
    by_cases hj : j ∈ is ∧ j < res.length
    · rw [if_pos hj, if_pos ⟨List.mem_cons_of_mem _ hj.1, hj.2⟩]
    · rw [if_neg hj, List.getElem?_set]
      by_cases hij : i = j
      · subst hij
        by_cases hlen : i < res.length
        · simp [hlen]
        · simp [hlen, List.getElem?_eq_none (Nat.le_of_not_lt hlen)]
      · rw [if_neg hij]
        by_cases hj2 : j ∈ i :: is ∧ j < res.length
        · rcases List.mem_cons.mp hj2.1 with he | hm
          · exact absurd he.symm hij
          · exact absurd ⟨hm, hj2.2⟩ hj
        · rw [if_neg hj2]

/-- C6: for period ≥ 1 and i in range, SMA at index i is the arithmetic mean
of close over indices i-period+1..i once i ≥ period-1 and undefined (NaN)
for the first period-1 indices; concretely SMA(3) over [1,2,3,4,5] is
[_, _, 2, 3, 4]. -/
theorem C6_sma_mean (closes : List ℚ) (period i : Nat) (hp : 1 ≤ period)
    (hi : i < closes.length) :
    ((period - 1 ≤ i →
        (calculate_sma closes period)[i]? =
          some (some ((smaWindow closes period i).sum / (period : ℚ)))) ∧
      (i < period - 1 →
        (calculate_sma closes period)[i]? = some none)) ∧
    calculate_sma [1, 2, 3, 4, 5] 3 = [none, none, some 2, some 3, some 4] := by
  have hone := hp
  constructor
  · have hmain := foldl_set_getElem
      (fun t => some ((smaWindow closes period t).sum / (period : ℚ)))
      (List.range' (period - 1) (closes.length - (period - 1)))
      (List.replicate closes.length none) i
    rw [List.length_replicate] at hmain
    constructor
    · intro hle
      have hmem : i ∈ List.range' (period - 1) (closes.length - (period - 1)) := by
        rw [mem_range_one]
        omega
      unfold calculate_sma
      rw [hmain, if_pos ⟨hmem, hi⟩]
    · intro hlt
      have hmem : i ∉ List.range' (period - 1) (closes.length - (period - 1)) := by
        rw [mem_range_one]
        omega
      unfold calculate_sma
      rw [hmain, if_neg fun hc => hmem hc.1, List.getElem?_replicate, if_pos hi]
  · norm_num [calculate_sma, smaWindow, List.range']
    rfl

/-- C6, witness: the concrete SMA(3) instance of the claim at index 2. -/
theorem C6_witness :
    1 ≤ 3 ∧ 2 < ([1, 2, 3, 4, 5] : List ℚ).length ∧
    (((3 - 1 ≤ 2 →
        (calculate_sma [1, 2, 3, 4, 5] 3)[2]? =
          some (some ((smaWindow [1, 2, 3, 4, 5] 3 2).sum / (3 : ℚ)))) ∧
      (2 < 3 - 1 →
        (calculate_sma [1, 2, 3, 4, 5] 3)[2]? = some none)) ∧
    calculate_sma [1, 2, 3, 4, 5] 3 = [none, none, some 2, some 3, some 4]) :=
  ⟨by decide, by decide, C6_sma_mean [1, 2, 3, 4, 5] 3 2 (by decide) (by decide)⟩

/-! `add_all_indicators` exists in two revisions. Only which output columns
appear, as a function of series length and configuration, matters to C7;
arguments mirror the Python signature `add_all_indicators(df, sma_periods,
ema_periods, rsi_period, macd_params, bb_params)`. -/

inductive ColName
  | sma (p : Nat)
  | ema (p : Nat)
  | rsi
  | macd
  | macd_signal
  | macd_histogram
  | bb_middle
  | bb_upper
  | bb_lower
  | atr
  deriving DecidableEq

structure IndicatorConfig where
  sma_periods : List Nat
  ema_periods : List Nat
  rsi_period : Nat
  macd_fast : Nat
  macd_slow : Nat
  macd_signal : Nat
  bb_period : Nat
  bb_std : Nat
  deriving DecidableEq

/-- The Python defaults: sma_periods=[20,50,200], ema_periods=[12,26],
rsi_period=14, macd_params=(12,26,9), bb_params=(20,2). -/
def defaultConfig : IndicatorConfig :=
  ⟨[20, 50, 200], [12, 26], 14, 12, 26, 9, 20, 2⟩

/-- indicators_minimal.py `add_all_indicators`: series shorter than 20 rows
returns the frame unchanged; otherwise each indicator is added only behind
its own length guard, and the whole body is wrapped in a broad
try/except, so the call never raises. `n` is the series length. -/
def add_all_indicators_minimal (n : Nat) (cfg : IndicatorConfig) : List ColName :=
  if n < 20 then []
  else
    ((cfg.sma_periods.filter fun p => p ≤ n).map ColName.sma)
    ++ ((cfg.ema_periods.filter fun p => p ≤ n).map ColName.ema)
    ++ (if cfg.rsi_period + 1 ≤ n then [ColName.rsi] else [])
    ++ (if cfg.macd_slow + cfg.macd_signal ≤ n then
          [ColName.macd, ColName.macd_signal, ColName.macd_histogram] else [])
    ++ (if cfg.bb_period ≤ n then
          [ColName.bb_middle, ColName.bb_upper, ColName.bb_lower] else [])
    ++ (if 14 ≤ n then [ColName.atr] else [])

/-- indicators.py `add_all_indicators` (the revision the dashboard apps
import): no length guard at all — every configured indicator column is
always assigned (pandas fills it with NaN when the window never completes);
the series length is never inspected. -/
def add_all_indicators_legacy (_n : Nat) (cfg : IndicatorConfig) : List ColName :=
  (cfg.sma_periods.map ColName.sma)
  ++ (cfg.ema_periods.map ColName.ema)
  ++ [ColName.rsi, ColName.macd, ColName.macd_signal, ColName.macd_histogram,
      ColName.bb_middle, ColName.bb_upper, ColName.bb_lower, ColName.atr]

/-- Rows an indicator's guard requires in indicators_minimal.py: the period
itself for SMA/EMA/Bollinger, period+1 for RSI, slow+signal for MACD, 14
for ATR. -/
def requiredLength (cfg : IndicatorConfig) : ColName → Nat
  | .sma p => p
  | .ema p => p
  | .rsi => cfg.rsi_period + 1
  | .macd => cfg.macd_slow + cfg.macd_signal
  | .macd_signal => cfg.macd_slow + cfg.macd_signal
  | .macd_histogram => cfg.macd_slow + cfg.macd_signal
  | .bb_middle => cfg.bb_period
  | .bb_upper => cfg.bb_period
  | .bb_lower => cfg.bb_period
  | .atr => 14

/-- C7, counterexample: with the default configuration and a 25-bar series,
the revision of `add_all_indicators` in indicators.py outputs the sma_200
column even though 200 > 25 — the claim says such a column is absent. -/
theorem C7_counterexample :
    ColName.sma 200 ∈ add_all_indicators_legacy 25 defaultConfig ∧ 25 < 200 := by
  constructor
  · decide
  · decide

/-- C7 (amended): in indicators_minimal.py every column present in the
result of `add_all_indicators` has its required period within the series
length — equivalently an indicator whose required period exceeds the length
is omitted entirely — and the function is total (never raises); the
indicators.py revision instead adds every configured column regardless of
length. -/
theorem C7_minimal_guard (n : Nat) (cfg : IndicatorConfig) (c : ColName)
    (hc : c ∈ add_all_indicators_minimal n cfg) :
    requiredLength cfg c ≤ n := by
  unfold add_all_indicators_minimal at hc
  by_cases h20 : n < 20
  · rw [if_pos h20] at hc
    exact absurd hc (List.not_mem_nil c)
  · rw [if_neg h20] at hc
    simp only [List.mem_append] at hc
    rcases hc with ((((h | h) | h) | h) | h) | h
    · rcases List.mem_map.mp h with ⟨p, hp, rfl⟩
      exact (List.mem_filter.mp hp).2 |> of_decide_eq_true
    · rcases List.mem_map.mp h with ⟨p, hp, rfl⟩
      exact (List.mem_filter.mp hp).2 |> of_decide_eq_true
    · by_cases hg : cfg.rsi_period + 1 ≤ n
      · rw [if_pos hg] at h
        rcases List.mem_singleton.mp h with rfl
        exact hg
      · rw [if_neg hg] at h
        exact absurd h (List.not_mem_nil c)
    · by_cases hg : cfg.macd_slow + cfg.macd_signal ≤ n
      · rw [if_pos hg] at h
        rcases List.mem_cons.mp h with rfl | h
        · exact hg
        rcases List.mem_cons.mp h with rfl | h
        · exact hg
        rcases List.mem_singleton.mp h with rfl
        exact hg
      · rw [if_neg hg] at h
        exact absurd h (List.not_mem_nil c)
    · by_cases hg : cfg.bb_period ≤ n
      · rw [if_pos hg] at h
        rcases List.mem_cons.mp h with rfl | h
        · exact hg
        rcases List.mem_cons.mp h with rfl | h
        · exact hg
        rcases List.mem_singleton.mp h with rfl
        exact hg
      · rw [if_neg hg] at h
        exact absurd h (List.not_mem_nil c)
    · by_cases hg : 14 ≤ n
      · rw [if_pos hg] at h
        rcases List.mem_singleton.mp h with rfl
        exact hg
      · rw [if_neg hg] at h
        exact absurd h (List.not_mem_nil c)

/-- C7, witness: sma_20 is present for a 20-bar series and its required
period 20 is within that length. -/
theorem C7_witness :
    ColName.sma 20 ∈ add_all_indicators_minimal 20 defaultConfig ∧
    requiredLength defaultConfig (ColName.sma 20) ≤ 20 :=
  ⟨by decide, C7_minimal_guard 20 defaultConfig (ColName.sma 20) (by decide)⟩

/-! `DataLoader.check_data_availability`, current revision (data_loader.py)
and backup revision (backup/data_loader_backup.py). The SQL
`SELECT COUNT(*), MIN(time), MAX(time) ... WHERE symbol = :ticker AND
interval = :interval` is modelled by filtering the store; a returned dict is
a structure whose absent keys are `none`. Timestamps are measured in days so
`(now - last).days` is plain subtraction. -/

structure AvailabilityInfo where
  has_data : Bool
  count : Option Nat
  first_date : Option ℤ
  last_date : Option ℤ
  days_old : Option ℤ
  needs_update : Bool
  deriving DecidableEq

def selectRows (store : Store) (ticker interval : String) : Store :=
  store.filter fun r => decide (r.1.symbol = ticker ∧ r.1.interval = interval)

def minTime : List ℤ → Option ℤ
  | [] => none
  | t :: ts =>
    match minTime ts with
    | none => some t
    | some m => some (min t m)

def maxTime : List ℤ → Option ℤ
  | [] => none
  | t :: ts =>
    match maxTime ts with
    | none => some t
    | some m => some (max t m)

/-- Current revision: `row[0] > 0` iff MAX(time) is non-NULL; in that branch
days_old = (now - last).days and needs_update = days_old > 1; with no rows
the dict holds only has_data=False and needs_update=True (no age key). -/
def check_data_availability (store : Store) (ticker interval : String)
    (now : ℤ) : AvailabilityInfo :=
  match minTime ((selectRows store ticker interval).map fun r => (r.1.time : ℤ)),
    maxTime ((selectRows store ticker interval).map fun r => (r.1.time : ℤ)) with
  | some first, some last =>
    ⟨true, some (selectRows store ticker interval).length, some first,
      some last, some (now - last), decide (1 < now - last)⟩
  | _, _ => ⟨false, none, none, none, none, true⟩

structure AvailabilityInfoBackup where
  has_data : Bool
  count : Nat
  last_date : Option ℤ
  first_date : Option ℤ
  age_days : ℤ
  needs_update : Bool
  deriving DecidableEq

/-- Backup revision: interval fixed to '1day', has_data requires count ≥
min_days, and the empty branch returns every key with age_days = 999. -/
def check_data_availability_backup (store : Store) (ticker : String)
    (min_days : Nat) (now : ℤ) : AvailabilityInfoBackup :=
  match minTime ((selectRows store ticker "1day").map fun r => (r.1.time : ℤ)),
    maxTime ((selectRows store ticker "1day").map fun r => (r.1.time : ℤ)) with
  | some first, some last =>
    ⟨decide (min_days ≤ (selectRows store ticker "1day").length),
      (selectRows store ticker "1day").length, some last, some first,
      now - last, decide (1 < now - last)⟩
  | _, _ => ⟨false, 0, none, none, 999, true⟩

/-- C8, counterexample: with no stored rows the current
`check_data_availability` returns has_data=False and needs_update=True but
no age at all (days_old absent), where the claim says the age is reported
as a large sentinel such as 999. -/
theorem C8_counterexample :
    (check_data_availability [] "AAPL" "1day" 100).days_old = none ∧
    (check_data_availability [] "AAPL" "1day" 100).has_data = false ∧
    (check_data_availability [] "AAPL" "1day" 100).needs_update = true :=
  ⟨rfl, rfl, rfl⟩

/-- C8 (amended): with no rows for the key both revisions return
has_data=False and needs_update=True; the current revision omits the age
from the result entirely, while the backup revision reports the 999-day
sentinel. -/
theorem C8_no_rows (store : Store) (ticker interval : String) (now : ℤ)
    (min_days : Nat)
    (h1 : selectRows store ticker interval = [])
    (h2 : selectRows store ticker "1day" = []) :
    check_data_availability store ticker interval now =
      ⟨false, none, none, none, none, true⟩ ∧
    check_data_availability_backup store ticker min_days now =
      ⟨false, 0, none, none, 999, true⟩ := by
  constructor
  · unfold check_data_availability
    rw [h1]
    rfl
  · unfold check_data_availability_backup
    rw [h2]
    rfl

/-- C8, witness: the amended theorem at the empty store. -/
theorem C8_witness :
    selectRows [] "AAPL" "1day" = [] ∧ selectRows [] "AAPL" "1day" = [] ∧
    (check_data_availability [] "AAPL" "1day" 100 =
      ⟨false, none, none, none, none, true⟩ ∧
    check_data_availability_backup [] "AAPL" 30 100 =
      ⟨false, 0, none, none, 999, true⟩) :=
  ⟨rfl, rfl, C8_no_rows [] "AAPL" "1day" 100 30 rfl rfl⟩

/-! `DataLoader.load_multiple_tickers` (data_loader.py): a sequential loop;
per ticker the load either returns True (success += 1), returns False
(failed += 1 and the ticker is appended to failed_tickers), or raises — the
exception is caught in the loop, failed += 1 and the ticker appended. The
per-ticker outcome is a parameter. -/

inductive TickerOutcome
  | success
  | softFail
  | raisedExc
  deriving DecidableEq

/-- One iteration of the loop body over the (success, failed,
failed_tickers) accumulator. -/
def loadStep (outcome : String → TickerOutcome)
    (acc : Nat × Nat × List String) (t : String) : Nat × Nat × List String :=
  match outcome t with
  | .success => (acc.1 + 1, acc.2.1, acc.2.2)
  | .softFail => (acc.1, acc.2.1 + 1, acc.2.2 ++ [t])
  | .raisedExc => (acc.1, acc.2.1 + 1, acc.2.2 ++ [t])

structure BatchStats where
  total : Nat
  success : Nat
  failed : Nat
  failed_tickers : List String
  deriving DecidableEq

def load_multiple_tickers (tickers : List String)
    (outcome : String → TickerOutcome) : BatchStats :=
  ⟨tickers.length, (tickers.foldl (loadStep outcome) (0, 0, [])).1,
    (tickers.foldl (loadStep outcome) (0, 0, [])).2.1,
    (tickers.foldl (loadStep outcome) (0, 0, [])).2.2⟩

theorem foldl_loadStep_sum (outcome : String → TickerOutcome) :
    ∀ (ts : List String) (acc : Nat × Nat × List String),
    (ts.foldl (loadStep outcome) acc).1 + (ts.foldl (loadStep outcome) acc).2.1 =
      acc.1 + acc.2.1 + ts.length
  | [], acc => by simp
  | t :: ts, acc => by
    rw [List.foldl_cons, foldl_loadStep_sum outcome ts (loadStep outcome acc t)]
    unfold loadStep
    cases outcome t <;> simp <;> omega

theorem foldl_loadStep_len (outcome : String → TickerOutcome) :
    ∀ (ts : List String) (acc : Nat × Nat × List String),
    acc.2.2.length = acc.2.1 →
    (ts.foldl (loadStep outcome) acc).2.2.length =
      (ts.foldl (loadStep outcome) acc).2.1
  | [], _, h => h
  | t :: ts, acc, h => by
    rw [List.foldl_cons]
    refine foldl_loadStep_len outcome ts (loadStep outcome acc t) ?_
    unfold loadStep
    cases outcome t <;> simp [h]

/-- C9: for every ticker list and every pattern of per-symbol outcomes
(success, soft failure, raised exception) the batch statistics satisfy
total = success + failed and len(failed_tickers) = failed. -/
theorem C9_batch_stats (tickers : List String)
    (outcome : String → TickerOutcome) :
    (load_multiple_tickers tickers outcome).total =
      (load_multiple_tickers tickers outcome).success +
        (load_multiple_tickers tickers outcome).failed ∧
    (load_multiple_tickers tickers outcome).failed_tickers.length =
      (load_multiple_tickers tickers outcome).failed := by
  unfold load_multiple_tickers
  refine ⟨?_, foldl_loadStep_len outcome tickers (0, 0, []) rfl⟩
  have h := foldl_loadStep_sum outcome tickers (0, 0, [])
  dsimp only at h ⊢
  omega

/-! `StockDataIngestion.__init__` (ingestion.py) against
`MassiveClient.__init__` (massive_client.py). Python binds a call's keyword
arguments against the callee's parameter list before the body runs; an
unexpected keyword raises TypeError. -/

/-- Parameters of `MassiveClient.__init__(self)` besides self: none. -/
def massiveClientInitParams : List String := []

/-- Keyword binding step of a Python call: every keyword must name a
parameter of the callee, otherwise TypeError. -/
def callWithKwargs (accepted : List String) (kwargs : List String) :
    Except String Unit :=
  if kwargs.all (fun k => accepted.contains k) then Except.ok ()
  else Except.error "TypeError"

/-- `StockDataIngestion.__init__(self, api_key=None)` runs
`MassiveClient(api_key=api_key)` — the keyword api_key is passed whatever
the argument's value is. -/
def stockDataIngestionInit (_api_key : Option String) : Except String Unit :=
  callWithKwargs massiveClientInitParams ["api_key"]

/-- C10: for every argument value (None included) constructing the
ingestion service raises TypeError, because MassiveClient.__init__ accepts
no parameter named api_key; this revision can never be instantiated. -/
theorem C10_init_type_error :
    ∀ api_key : Option String,
      stockDataIngestionInit api_key = Except.error "TypeError" :=
  fun _ => rfl

end StockData
